import Mathlib

/-!
Verification of the MeowPDF core against its natural-language specification.

The Rust sources are embedded shallowly:
* the image registry (`src/viewer.rs`, `Viewer::display_pages` and the
  `remove_image!` macro) becomes explicit state passing over `RegistryState`,
  with `Image` handles represented by the byte size of their pixel buffer
  (the only attribute the registry code inspects) and panics modelled by
  `Option`;
* the viewport engine (`src/viewer.rs`, `ViewerOffset`) uses exact rationals
  in place of `f32` (no NaN; the source `expect`s on NaN anyway) and mirrors
  Rust's `slice::binary_search_by` algorithm;
* the config migration (`src/config.rs`, `fix_config_toml`) works on TOML
  tables modelled as key-ordered association lists (the `toml::Table` map);
* the rasterizer worker (`src/threads/renderer.rs`) becomes a step function
  over its two priority queues;
* the temp-file handshake (`src/drivers/graphics.rs`,
  `terminal_graphics_transfer_bitmap`) becomes a small labelled transition
  system in which the environment (the terminal) may only delete the file.
-/

namespace MeowPDF

/-! ## Association-list maps (HashMap<usize, _> semantics)

`Viewer.images : HashMap<usize, Arc<RwLock<Image>>>` is modelled as an
association list from page index to the image size in bytes
(`Image::size(&self) = self.data.len()`, `src/image.rs`). -/

/-- Lookup in the page map, `HashMap::get`. -/
def lookupMap (m : List (Nat × Nat)) (k : Nat) : Option Nat :=
  (m.find? (fun kv => kv.1 == k)).map Prod.snd

/-- Key removal, `HashMap::remove`. -/
def eraseMap (k : Nat) (m : List (Nat × Nat)) : List (Nat × Nat) :=
  m.filter (fun kv => kv.1 != k)

/-- Insert-or-replace, `HashMap::insert`. -/
def insertMap (k v : Nat) (m : List (Nat × Nat)) : List (Nat × Nat) :=
  (k, v) :: eraseMap k m

/-- Sum of the held images' pixel-buffer sizes. -/
def mapSum (m : List (Nat × Nat)) : Nat :=
  (m.map Prod.snd).sum

/-- Set insertion for `HashMap<usize, ()>` used as a set. -/
def setInsert (s : List Nat) (x : Nat) : List Nat :=
  if x ∈ s then s else s ++ [x]

/-! ## The image registry (`src/viewer.rs`, fields of `Viewer`) -/

/-- The registry-relevant fields of `Viewer` (`src/viewer.rs:172-176`):
`images`, `invalidated`, `scheduled4render`, `memory_used`,
`last_rendered` (insertion-order FIFO, head = oldest). -/
structure RegistryState where
  images : List (Nat × Nat)
  invalidated : List Nat
  scheduled4render : List Nat
  memory_used : Nat
  last_rendered : List Nat
  deriving Repr, DecidableEq

/-- The state `Viewer::new` creates (`src/viewer.rs:193-197`). -/
def regInit : RegistryState :=
  { images := [], invalidated := [], scheduled4render := [],
    memory_used := 0, last_rendered := [] }

/-- The `remove_image!` macro (`src/viewer.rs:393-398`):
`memory_used -= images[&page].size(); images.remove(&page)`.
Indexing a `HashMap` with `[]` panics when the key is absent; the panic is
modelled by `none`. -/
def remove_image (st : RegistryState) (page : Nat) : Option RegistryState :=
  match lookupMap st.images page with
  | none => none
  | some sz =>
    some { st with
      memory_used := st.memory_used - sz,
      images := eraseMap page st.images }

/-- The eviction loop (`src/viewer.rs:421-427`):
`while memory_used >= memory_limit { pop_front().unwrap(); skip if evicted;
remove_image! }`. `pop_front().unwrap()` on an empty FIFO panics (`none`). -/
def evict_loop (limit : Nat) :
    List Nat → List (Nat × Nat) → Nat → Option (List Nat × List (Nat × Nat) × Nat)
  | [], images, used =>
    if used < limit then some ([], images, used) else none
  | p :: rest, images, used =>
    if used < limit then some (p :: rest, images, used)
    else
      match lookupMap images p with
      | none => evict_loop limit rest images used
      | some sz => evict_loop limit rest (eraseMap p images) (used - sz)

/-- One iteration of the result-draining loop in `Viewer::display_pages`
(`src/viewer.rs:405-428`), processing one `(page, image)` message.
A `none` image takes the `remove_image!` path; a `some` image is inserted:
`invalidated.remove(&page); memory_used += size; last_rendered.push_back(page);
images.insert(page, image); scheduled4render.remove(&page);` then the
eviction loop runs.  Note the code never subtracts the size of an image it
replaces by this `HashMap::insert`. -/
def process_image (limit : Nat) (st : RegistryState) (page : Nat)
    (img : Option Nat) : Option RegistryState :=
  match img with
  | none => remove_image st page
  | some sz =>
    let invalidated' := st.invalidated.filter (fun q => q != page)
    let used' := st.memory_used + sz
    let fifo' := st.last_rendered ++ [page]
    let images' := insertMap page sz st.images
    let sched' := st.scheduled4render.filter (fun q => q != page)
    match evict_loop limit fifo' images' used' with
    | none => none
    | some (fifo'', images'', used'') =>
      some { images := images'', invalidated := invalidated',
             scheduled4render := sched', memory_used := used'',
             last_rendered := fifo'' }

/-- The document-reload reaction (`src/viewer.rs:437-441`):
`for k in images.keys() { invalidated.insert(*k, ()); }`.
Nothing else is touched: images, FIFO, `memory_used` and
`scheduled4render` are all left as they are. -/
def invalidate_all (st : RegistryState) : RegistryState :=
  { st with
    invalidated := st.images.foldl (fun acc kv => setInsert acc kv.1) st.invalidated }

/-! ## Registry lemmas -/

/-- The eviction loop only returns normally once `memory_used` is strictly
below the limit. -/
theorem evict_loop_lt (limit : Nat) :
    ∀ (fifo : List Nat) (images : List (Nat × Nat)) (used : Nat)
      (f' : List Nat) (i' : List (Nat × Nat)) (u' : Nat),
      evict_loop limit fifo images used = some (f', i', u') → u' < limit := by
  intro fifo
  induction fifo with
  | nil =>
    intro images used f' i' u' h
    by_cases hlt : used < limit
    · simp [evict_loop, hlt] at h
      omega
    · simp [evict_loop, hlt] at h
  | cons p rest ih =>
    intro images used f' i' u' h
    by_cases hlt : used < limit
    · simp [evict_loop, hlt] at h
      omega
    · simp only [evict_loop, if_neg hlt] at h
      cases hfind : lookupMap images p with
      | none =>
        rw [hfind] at h
        exact ih images used f' i' u' h
      | some sz =>
        rw [hfind] at h
        exact ih (eraseMap p images) (used - sz) f' i' u' h

theorem mem_setInsert (s : List Nat) (x y : Nat) :
    y ∈ setInsert s x ↔ y ∈ s ∨ y = x := by
  unfold setInsert
  by_cases hx : x ∈ s
  · simp only [if_pos hx]
    constructor
    · exact Or.inl
    · rintro (h | rfl)
      · exact h
      · exact hx
  · simp [if_neg hx]

theorem mem_foldl_setInsert (l : List (Nat × Nat)) :
    ∀ (acc : List Nat) (x : Nat),
      x ∈ l.foldl (fun a kv => setInsert a kv.1) acc ↔
        x ∈ acc ∨ x ∈ l.map Prod.fst := by
  induction l with
  | nil => intro acc x; simp
  | cons kv rest ih =>
    intro acc x
    simp only [List.foldl_cons, List.map_cons, List.mem_cons]
    rw [ih, mem_setInsert]
    tauto

/-! ## Claim theorems for the registry -/

/-- Claim C1 (code bug): the memory-accounting invariant
`memory_used = Σ held sizes` is broken by the code.  Starting from the empty
registry with limit 1000000: insert an image of size 100 for page 0, run the
document-reload invalidation (so page 0 is in `invalidated`), then insert the
re-rendered replacement of size 100 for page 0.  The insert path of
`Viewer::display_pages` adds the new size but never subtracts the size of the
image it replaces, leaving `memory_used = 200` while the only held image has
size 100 — the claim (and the spec) require the old entry's size to be
dropped first, giving 100. -/
theorem c1_memory_accounting_code_bug :
    process_image 1000000 regInit 0 (some 100) =
      some { images := [(0, 100)], invalidated := [], scheduled4render := [],
             memory_used := 100, last_rendered := [0] } ∧
    (0 : Nat) ∈ (invalidate_all
      { images := [(0, 100)], invalidated := [], scheduled4render := [],
        memory_used := 100, last_rendered := [0] }).invalidated ∧
    process_image 1000000 (invalidate_all
      { images := [(0, 100)], invalidated := [], scheduled4render := [],
        memory_used := 100, last_rendered := [0] }) 0 (some 100) =
      some { images := [(0, 100)], invalidated := [], scheduled4render := [],
             memory_used := 200, last_rendered := [0, 0] } ∧
    mapSum [(0, 100)] = 100 ∧ (200 : Nat) ≠ 100 := by
  refine ⟨rfl, ?_, rfl, rfl, by decide⟩
  decide

/-- Claim C3 (amended): whenever an insertion completes without panicking,
`memory_used < memory_limit` holds immediately afterwards — with no
exception: the eviction loop runs until it is strictly under budget, even if
that means evicting the just-inserted image. -/
theorem c3_budget_after_insert (limit : Nat) (st : RegistryState)
    (page sz : Nat) (st' : RegistryState)
    (h : process_image limit st page (some sz) = some st') :
    st'.memory_used < limit := by
  simp only [process_image] at h
  cases hev : evict_loop limit (st.last_rendered ++ [page])
      (insertMap page sz st.images) (st.memory_used + sz) with
  | none => rw [hev] at h; exact absurd h (by simp)
  | some out =>
    obtain ⟨f'', i'', u''⟩ := out
    rw [hev] at h
    have := evict_loop_lt limit (st.last_rendered ++ [page])
      (insertMap page sz st.images) (st.memory_used + sz) f'' i'' u'' hev
    have hst : st'.memory_used = u'' := by
      cases h; rfl
    omega

/-- Witness for C3: inserting an image of size 100 under limit 1000 into the
empty registry completes and leaves `memory_used = 100 < 1000`. -/
theorem c3_budget_after_insert_witness :
    ({ images := [(0, 100)], invalidated := [], scheduled4render := [],
       memory_used := 100, last_rendered := [0] } : RegistryState).memory_used
      < 1000 :=
  c3_budget_after_insert 1000 regInit 0 100 _ rfl

/-- Counterexample for C3 as stated: with `memory_limit = 150`, inserting a
single image of size 200 (≥ limit) into the empty registry evicts the newly
inserted image as well: afterwards no image at all is held, rather than
"exactly that newest image". -/
theorem c3_counterexample :
    150 ≤ 200 ∧
    process_image 150 regInit 0 (some 200) =
      some { images := [], invalidated := [], scheduled4render := [],
             memory_used := 0, last_rendered := [] } ∧
    lookupMap ([] : List (Nat × Nat)) 0 = none := by
  exact ⟨by decide, rfl, rfl⟩

/-- Claim C4 (amended): reacting to the document-reload signal marks every
held page invalidated and only grows the `invalidated` set, drops no bitmap
(the held map is untouched, so its length is unchanged), and leaves the
`scheduled4render` set unchanged — it is NOT cleared. -/
theorem c4_invalidate_all_amended (st : RegistryState) :
    (invalidate_all st).images = st.images ∧
    (invalidate_all st).scheduled4render = st.scheduled4render ∧
    (invalidate_all st).memory_used = st.memory_used ∧
    (∀ p, p ∈ st.images.map Prod.fst → p ∈ (invalidate_all st).invalidated) ∧
    (∀ p, p ∈ st.invalidated → p ∈ (invalidate_all st).invalidated) := by
  refine ⟨rfl, rfl, rfl, ?_, ?_⟩
  · intro p hp
    exact (mem_foldl_setInsert st.images st.invalidated p).mpr (Or.inr hp)
  · intro p hp
    exact (mem_foldl_setInsert st.images st.invalidated p).mpr (Or.inl hp)

/-- A sample registry state: page 1 is held (size 10 bytes) and page 7 has
an in-flight render request. -/
def regSample : RegistryState :=
  { images := [(1, 10)], invalidated := [], scheduled4render := [7],
    memory_used := 10, last_rendered := [1] }

/-- Witness for C4: the amended theorem evaluated at the concrete state
`regSample`, in which page 1 is held and page 7 is scheduled. -/
theorem c4_invalidate_all_witness :
    (invalidate_all regSample).images = [(1, 10)] ∧
    (1 : Nat) ∈ (invalidate_all regSample).invalidated :=
  ⟨(c4_invalidate_all_amended regSample).1,
    (c4_invalidate_all_amended regSample).2.2.2.1 1 (by decide)⟩

/-- Counterexample for C4 as stated: the reload reaction does not clear the
scheduled set — a state with `scheduled4render = [7]` keeps it. -/
theorem c4_counterexample :
    (invalidate_all regSample).scheduled4render ≠ [] := by
  decide

/-- Claim C9: processing a rasterizer result `Image{page, data: None}`
panics exactly when `page` is not currently held: the `remove_image!` macro
indexes the held-images map with `page` to subtract its size, so a `None`
for a page that was scheduled but never held (or already evicted) panics
rather than being a no-op. -/
theorem c9_remove_requires_held (limit : Nat) (st : RegistryState)
    (page : Nat) :
    process_image limit st page none = none ↔
      lookupMap st.images page = none := by
  unfold process_image remove_image
  cases h : lookupMap st.images page <;> simp [h]

/-- Witness for C9: a `None` result for page 5 against the empty registry
panics. -/
theorem c9_remove_requires_held_witness :
    process_image 0 regInit 5 none = none :=
  (c9_remove_requires_held 0 regInit 5).mpr rfl

/-! ## The viewport engine (`src/viewer.rs`, `ViewerOffset`)

`f32` values are embedded as exact rationals.  The source `expect`s on NaN
inside `offset2page`, so rationals cover all non-panicking runs. -/

/-- `ViewerOffset` (`src/viewer.rs:15-22`). -/
structure ViewerOffset where
  scale : ℚ
  page_first : Nat
  page_view : Nat
  offset : ℚ × ℚ
  max_page_width : ℚ
  cumulative_heights : List ℚ
  deriving Repr, DecidableEq

/-- `ViewerOffset::new` (`src/viewer.rs:25-35`); `scale_default` comes from
the config. -/
def ViewerOffset.new (scale_default max_page_width : ℚ)
    (cumulative_heights : List ℚ) : ViewerOffset :=
  { scale := scale_default, page_first := 0, page_view := 0,
    offset := (0, 0), max_page_width := max_page_width,
    cumulative_heights := cumulative_heights }

/-- Rust `slice::binary_search_by` from `core::slice`:
`while left < right { mid := left + size/2; cmp v[mid] with target;
Less ⇒ left := mid+1; Greater ⇒ right := mid; Equal ⇒ return Ok(mid) };
Err(left)`.  The fuel argument only bounds the iteration count; with fuel
`v.length + 1` it never runs out, since `right - left` strictly decreases. -/
def bsearchAux (v : List ℚ) (t : ℚ) : Nat → Nat → Nat → Nat ⊕ Nat
  | 0, left, _ => Sum.inr left
  | fuel + 1, left, right =>
    if left < right then
      if v.getD (left + (right - left) / 2) 0 < t then
        bsearchAux v t fuel (left + (right - left) / 2 + 1) right
      else if t < v.getD (left + (right - left) / 2) 0 then
        bsearchAux v t fuel left (left + (right - left) / 2)
      else Sum.inl (left + (right - left) / 2)
    else Sum.inr left

/-- `cumulative_heights.binary_search_by(|x| x.partial_cmp(&offset))` over
the whole slice. -/
def binary_search_by (v : List ℚ) (t : ℚ) : Nat ⊕ Nat :=
  bsearchAux v t (v.length + 1) 0 v.length

/-- `ViewerOffset::offset2page` (`src/viewer.rs:37-50`): both the `Ok` and
the `Err` result of the binary search are used as the page index. -/
def offset2page (v : List ℚ) (t : ℚ) : Nat :=
  match binary_search_by v t with
  | Sum.inl x => x
  | Sum.inr x => x

/-- `ViewerOffset::bound_viewer` (`src/viewer.rs:52-86`).
`ws_xpixel`/`ws_ypixel` are the terminal dimensions in pixels, `scale_min`
comes from the config.  The source indexes
`cumulative_heights[cumulative_heights.len() - 1]`; on an empty vector the
`usize` subtraction underflows and the indexing panics — modelled by
`none`. -/
def bound_viewer (scale_min ws_xpixel ws_ypixel : ℚ) (st : ViewerOffset) :
    Option ViewerOffset :=
  let scale := max st.scale scale_min
  let x1 := max st.offset.1 (min 0 (ws_xpixel - st.max_page_width * scale))
  let x2 := min x1 (max 0 (ws_xpixel - st.max_page_width * scale))
  if st.cumulative_heights.isEmpty then none
  else
    let last := st.cumulative_heights.getD (st.cumulative_heights.length - 1) 0
    let max_yoffset := max (-10) (last - ws_ypixel / scale)
    let y1 := max st.offset.2 (-10)
    let y2 := min y1 max_yoffset
    let pf := offset2page st.cumulative_heights y2
    let pv0 := offset2page st.cumulative_heights (y2 + ws_ypixel * (1 / 2) / scale)
    let pv := min pv0 (st.cumulative_heights.length - 1)
    some { st with scale := scale, offset := (x2, y2),
                   page_first := pf, page_view := pv }

/-- `ViewerOffset::scroll` (`src/viewer.rs:96-100`): shift the offset, then
bound. -/
def ViewerOffset.scroll (scale_min ws_xpixel ws_ypixel : ℚ)
    (amount : ℚ × ℚ) (st : ViewerOffset) : Option ViewerOffset :=
  bound_viewer scale_min ws_xpixel ws_ypixel
    { st with offset := (st.offset.1 + amount.1, st.offset.2 + amount.2) }

/-- The `ViewerOffset::scale` method (`src/viewer.rs:118-121`), renamed to
avoid clashing with the field of the same name: add to the scale, then
bound. -/
def ViewerOffset.scale_op (scale_min ws_xpixel ws_ypixel : ℚ)
    (amount : ℚ) (st : ViewerOffset) : Option ViewerOffset :=
  bound_viewer scale_min ws_xpixel ws_ypixel { st with scale := st.scale + amount }

/-! ## Viewport lemmas -/

/-- Both constructors of the binary-search result carry an index; this is
the projection `offset2page` applies. -/
def searchIndex : Nat ⊕ Nat → Nat
  | Sum.inl i => i
  | Sum.inr i => i

theorem offset2page_eq_searchIndex (v : List ℚ) (t : ℚ) :
    offset2page v t = searchIndex (binary_search_by v t) := by
  unfold offset2page searchIndex
  cases binary_search_by v t <;> rfl

/-- If the last element of `v` is not below the target, the binary search
never returns an index past `v.length - 1`: the `left := mid + 1` move with
`mid = v.length - 1` would require `v[len-1] < t`. -/
theorem bsearchAux_le (v : List ℚ) (t : ℚ)
    (hlast : ¬ v.getD (v.length - 1) 0 < t) :
    ∀ (fuel left right : Nat), left ≤ v.length - 1 → right ≤ v.length →
      searchIndex (bsearchAux v t fuel left right) ≤ v.length - 1 := by
  intro fuel
  induction fuel with
  | zero =>
    intro left right hl _
    simpa [bsearchAux, searchIndex] using hl
  | succ fuel ih =>
    intro left right hl hr
    by_cases hlr : left < right
    · have hmidlt : left + (right - left) / 2 < right := by omega
      have hmidle : left + (right - left) / 2 ≤ v.length - 1 := by omega
      by_cases h1 : v.getD (left + (right - left) / 2) 0 < t
      · have hstep : left + (right - left) / 2 + 1 ≤ v.length - 1 := by
          rcases Nat.lt_or_ge (left + (right - left) / 2) (v.length - 1) with hc | hc
          · omega
          · have heq : left + (right - left) / 2 = v.length - 1 :=
              le_antisymm hmidle hc
            rw [heq] at h1
            exact absurd h1 hlast
        simp only [bsearchAux, if_pos hlr, if_pos h1]
        exact ih (left + (right - left) / 2 + 1) right hstep hr
      · by_cases h2 : t < v.getD (left + (right - left) / 2) 0
        · simp only [bsearchAux, if_pos hlr, if_neg h1, if_pos h2]
          exact ih left (left + (right - left) / 2) hl (by omega)
        · simp only [bsearchAux, if_pos hlr, if_neg h1, if_neg h2, searchIndex]
          exact hmidle
    · simp only [bsearchAux, if_neg hlr, searchIndex]
      exact hl

/-- The page index computed for any target not above the last cumulative
height is a valid index. -/
theorem offset2page_le (v : List ℚ) (t : ℚ)
    (hlast : t ≤ v.getD (v.length - 1) 0) :
    offset2page v t ≤ v.length - 1 := by
  rw [offset2page_eq_searchIndex]
  exact bsearchAux_le v t (not_lt.mpr hlast) (v.length + 1) 0 v.length
    (Nat.zero_le _) (le_refl _)

/-! ## Claim theorems for the viewport -/

/-- Claim C5: after `bound_viewer` returns on a state whose
`cumulative_heights` is non-empty (it returns `none` exactly on the empty
vector), the scale is at least `scale_min`, the y offset lies in
`[-10, max (-10) (last_cumulative_height - viewport_height / scale)]`, the
x offset lies between `min 0 (viewport_width - max_width * scale)` and
`max 0 (viewport_width - max_width * scale)`, and `page_first` and
`page_view` are valid page indices.  The hypotheses `0 < scale_min`,
`0 ≤ ws_ypixel` and `0 ≤ last` reflect the config validation
(`scale_min <= 0` is rejected at load, `src/config.rs:141-145`), the `u16`
terminal dimension, and `cumulative_heights` being a running sum of
non-negative page heights plus a validated non-negative margin. -/
theorem c5_bound_viewer_invariant (smin wsx wsy : ℚ) (st st' : ViewerOffset)
    (hsmin : 0 < smin) (hwsy : 0 ≤ wsy)
    (hlast : 0 ≤ st.cumulative_heights.getD (st.cumulative_heights.length - 1) 0)
    (h : bound_viewer smin wsx wsy st = some st') :
    smin ≤ st'.scale ∧
    (-10 ≤ st'.offset.2 ∧
      st'.offset.2 ≤ max (-10)
        (st.cumulative_heights.getD (st.cumulative_heights.length - 1) 0
          - wsy / st'.scale)) ∧
    (min 0 (wsx - st.max_page_width * st'.scale) ≤ st'.offset.1 ∧
      st'.offset.1 ≤ max 0 (wsx - st.max_page_width * st'.scale)) ∧
    st'.page_first ≤ st.cumulative_heights.length - 1 ∧
    st'.page_view ≤ st.cumulative_heights.length - 1 := by
  by_cases hemp : st.cumulative_heights.isEmpty
  · simp [bound_viewer, hemp] at h
  · simp only [bound_viewer, if_neg hemp, Option.some.injEq] at h
    subst h
    have hscale : (0 : ℚ) < max st.scale smin :=
      lt_of_lt_of_le hsmin (le_max_right _ _)
    have hdiv : (0 : ℚ) ≤ wsy / max st.scale smin :=
      div_nonneg hwsy (le_of_lt hscale)
    refine ⟨le_max_right _ _, ⟨?_, ?_⟩, ⟨?_, ?_⟩, ?_, ?_⟩
    · exact le_min (le_max_right _ _) (le_max_left _ _)
    · exact min_le_right _ _
    · exact le_min (le_max_right _ _)
        (le_trans (min_le_left _ _) (le_max_left _ _))
    · exact min_le_right _ _
    · refine offset2page_le _ _ ?_
      refine le_trans (min_le_right _ _) (max_le (by linarith) (by linarith))
    · exact le_trans (min_le_right _ _) (le_refl _)

/-- Witness for C5: the invariant evaluated on the concrete state with one
page of cumulative height 100, scale 1, viewport 100 × 50 and
`scale_min = 1`; `bound_viewer` maps this state to itself. -/
theorem c5_bound_viewer_witness :
    (1 : ℚ) ≤ (ViewerOffset.new 1 10 [100]).scale ∧
    (-10 ≤ (ViewerOffset.new 1 10 [100]).offset.2 ∧
      (ViewerOffset.new 1 10 [100]).offset.2 ≤ max (-10)
        (([100] : List ℚ).getD (([100] : List ℚ).length - 1) 0
          - 50 / (ViewerOffset.new 1 10 [100]).scale)) ∧
    (min 0 (100 - (10 : ℚ) * (ViewerOffset.new 1 10 [100]).scale) ≤
        (ViewerOffset.new 1 10 [100]).offset.1 ∧
      (ViewerOffset.new 1 10 [100]).offset.1 ≤
        max 0 (100 - (10 : ℚ) * (ViewerOffset.new 1 10 [100]).scale)) ∧
    (ViewerOffset.new 1 10 [100]).page_first ≤ ([100] : List ℚ).length - 1 ∧
    (ViewerOffset.new 1 10 [100]).page_view ≤ ([100] : List ℚ).length - 1 :=
  c5_bound_viewer_invariant 1 100 50 (ViewerOffset.new 1 10 [100])
    (ViewerOffset.new 1 10 [100]) (by norm_num) (by norm_num) (by decide)
    (by norm_num [bound_viewer, ViewerOffset.new, offset2page,
      binary_search_by, bsearchAux])

/-- Claim C6: the offset-to-page binary search on
`cumulative_heights = [100, 250, 400]` returns 0 at offset 0, 0 at offset
100 (exact hit at the first page's upper bound), 1 at 101, 2 at 399, and 3
at 1000 (past the end). -/
theorem c6_offset2page_concrete :
    offset2page [100, 250, 400] 0 = 0 ∧
    offset2page [100, 250, 400] 100 = 0 ∧
    offset2page [100, 250, 400] 101 = 1 ∧
    offset2page [100, 250, 400] 399 = 2 ∧
    offset2page [100, 250, 400] 1000 = 3 := by
  refine ⟨by decide, by decide, by decide, by decide, by decide⟩

/-- Claim C10: `bound_viewer` — and `scroll` and the scale method, which
call it — requires a non-empty `cumulative_heights`: on a viewer holding
zero pages it indexes `cumulative_heights[len - 1]` with an underflowed
index and panics.  `Viewer::new` creates exactly such a state
(`ViewerOffset::new(0, Vec::new())`, `src/viewer.rs:192`). -/
theorem c10_bound_viewer_empty_panics (smin wsx wsy dx dy ds sd : ℚ)
    (st : ViewerOffset) (h : st.cumulative_heights = []) :
    bound_viewer smin wsx wsy st = none ∧
    ViewerOffset.scroll smin wsx wsy (dx, dy) st = none ∧
    ViewerOffset.scale_op smin wsx wsy ds st = none ∧
    (ViewerOffset.new sd 0 []).cumulative_heights = [] := by
  refine ⟨?_, ?_, ?_, rfl⟩ <;>
    simp [bound_viewer, ViewerOffset.scroll, ViewerOffset.scale_op, h]

/-- Witness for C10: the state `Viewer::new` creates panics in
`bound_viewer`, `scroll` and the scale method. -/
theorem c10_bound_viewer_empty_witness :
    bound_viewer 1 100 50 (ViewerOffset.new 1 0 []) = none ∧
    ViewerOffset.scroll 1 100 50 (2, 3) (ViewerOffset.new 1 0 []) = none ∧
    ViewerOffset.scale_op 1 100 50 2 (ViewerOffset.new 1 0 []) = none ∧
    (ViewerOffset.new 1 0 []).cumulative_heights = [] :=
  c10_bound_viewer_empty_panics 1 100 50 2 3 2 1 (ViewerOffset.new 1 0 []) rfl

/-! ## Config migration (`src/config.rs`, `fix_config_toml`)

`toml::Value` is modelled by the inductive `Toml`; `toml::Table` is a map
from `String` keys, modelled as a key-sorted association list, so the pair
of tables is walked by a key merge.  `mem::discriminant` comparison becomes
`sameDiscriminant`.  The Rust loop iterates a `HashSet` of the union of the
keys in unspecified order, but each key is reconciled independently, so the
resulting map does not depend on that order. -/

/-- The `toml::Value` variants (`Float` carried as an exact rational;
`Datetime` as its textual form — only the discriminant of these ever
matters to `fix_config_toml`). -/
inductive Toml where
  | str (s : String)
  | int (n : Int)
  | float (q : ℚ)
  | boolean (b : Bool)
  | datetime (d : String)
  | array (xs : List Toml)
  | table (kvs : List (String × Toml))

/-- `mem::discriminant(a) == mem::discriminant(b)`. -/
def sameDiscriminant : Toml → Toml → Bool
  | Toml.str _, Toml.str _ => true
  | Toml.int _, Toml.int _ => true
  | Toml.float _, Toml.float _ => true
  | Toml.boolean _, Toml.boolean _ => true
  | Toml.datetime _, Toml.datetime _ => true
  | Toml.array _, Toml.array _ => true
  | Toml.table _, Toml.table _ => true
  | _, _ => false

/-- `fix_config_toml` (`src/config.rs:59-88`) on the merged key walk:
a key only in `current` is removed; a key only in `default` is added with
the default value; a key in both with differing discriminants is replaced
by the default value; two sub-tables are reconciled recursively; otherwise
the current value is kept.  The returned flag is `config_has_changed`. -/
def fix_config_toml : List (String × Toml) → List (String × Toml) →
    List (String × Toml) × Bool
  | [], [] => ([], false)
  | [], d :: ds => (d :: (fix_config_toml [] ds).1, true)
  | _ :: cs, [] => ((fix_config_toml cs []).1, true)
  | (ck, cv) :: cs, (dk, dv) :: ds =>
    if ck < dk then
      ((fix_config_toml cs ((dk, dv) :: ds)).1, true)
    else if dk < ck then
      ((dk, dv) :: (fix_config_toml ((ck, cv) :: cs) ds).1, true)
    else
      if sameDiscriminant cv dv then
        match cv, dv with
        | Toml.table crec, Toml.table drec =>
          ((ck, Toml.table (fix_config_toml crec drec).1) ::
              (fix_config_toml cs ds).1,
            (fix_config_toml crec drec).2 || (fix_config_toml cs ds).2)
        | _, _ => ((ck, cv) :: (fix_config_toml cs ds).1, (fix_config_toml cs ds).2)
      else
        ((ck, dv) :: (fix_config_toml cs ds).1, true)
  termination_by c d => sizeOf c + sizeOf d
  decreasing_by all_goals (simp_wf <;> omega)

/-- Discriminates the `Table` variant. -/
def isTable : Toml → Bool
  | Toml.table _ => true
  | _ => false

/-! ## Config-migration lemmas -/

theorem fix_nil_nil : fix_config_toml [] [] = ([], false) := by
  rw [fix_config_toml.eq_def]

theorem fix_nil_cons (d : String × Toml) (ds : List (String × Toml)) :
    fix_config_toml [] (d :: ds) = (d :: (fix_config_toml [] ds).1, true) := by
  rw [fix_config_toml.eq_def]

theorem fix_cons_nil (x : String × Toml) (cs : List (String × Toml)) :
    fix_config_toml (x :: cs) [] = ((fix_config_toml cs []).1, true) := by
  rw [fix_config_toml.eq_def]

theorem fix_nil_right_fst : ∀ cs : List (String × Toml),
    (fix_config_toml cs []).1 = [] := by
  intro cs
  induction cs with
  | nil => rw [fix_nil_nil]
  | cons x cs ih => rw [fix_cons_nil, ih]

/-- Reconciling a table against itself changes nothing. -/
theorem fix_config_toml_self_aux :
    ∀ (n : Nat) (t : List (String × Toml)), sizeOf t < n →
      fix_config_toml t t = (t, false) := by
  intro n
  induction n with
  | zero => intro t h; exact absurd h (Nat.not_lt_zero _)
  | succ n ih =>
    intro t h
    cases t with
    | nil => rw [fix_nil_nil]
    | cons hd ts =>
      obtain ⟨k, v⟩ := hd
      have hk : ¬ k < k := lt_irrefl k
      simp only [List.cons.sizeOf_spec, Prod.mk.sizeOf_spec] at h
      have hts : fix_config_toml ts ts = (ts, false) := by
        apply ih
        omega
      cases v with
      | table rec =>
        have hrec : fix_config_toml rec rec = (rec, false) := by
          apply ih
          have hsz : sizeOf (Toml.table rec) = 1 + sizeOf rec := by simp
          omega
        rw [fix_config_toml.eq_def]
        simp [hk, sameDiscriminant, hrec, hts]
      | str s =>
        rw [fix_config_toml.eq_def]; simp [hk, sameDiscriminant, hts]
      | int m =>
        rw [fix_config_toml.eq_def]; simp [hk, sameDiscriminant, hts]
      | float q =>
        rw [fix_config_toml.eq_def]; simp [hk, sameDiscriminant, hts]
      | boolean b =>
        rw [fix_config_toml.eq_def]; simp [hk, sameDiscriminant, hts]
      | datetime dt =>
        rw [fix_config_toml.eq_def]; simp [hk, sameDiscriminant, hts]
      | array xs =>
        rw [fix_config_toml.eq_def]; simp [hk, sameDiscriminant, hts]

theorem fix_config_toml_self (t : List (String × Toml)) :
    fix_config_toml t t = (t, false) :=
  fix_config_toml_self_aux (sizeOf t + 1) t (Nat.lt_succ_self _)

/-- A shared head key with an identical value contributes the value
unchanged and no change flag. -/
theorem fix_pair_self (k : String) (v : Toml) (c2 d2 : List (String × Toml)) :
    fix_config_toml ((k, v) :: c2) ((k, v) :: d2) =
      ((k, v) :: (fix_config_toml c2 d2).1, (fix_config_toml c2 d2).2) := by
  have hk : ¬ k < k := lt_irrefl k
  cases v with
  | table rec =>
    rw [fix_config_toml.eq_def]
    simp [hk, sameDiscriminant, fix_config_toml_self rec]
  | str s => rw [fix_config_toml.eq_def]; simp [hk, sameDiscriminant]
  | int m => rw [fix_config_toml.eq_def]; simp [hk, sameDiscriminant]
  | float q => rw [fix_config_toml.eq_def]; simp [hk, sameDiscriminant]
  | boolean b => rw [fix_config_toml.eq_def]; simp [hk, sameDiscriminant]
  | datetime dt => rw [fix_config_toml.eq_def]; simp [hk, sameDiscriminant]
  | array xs => rw [fix_config_toml.eq_def]; simp [hk, sameDiscriminant]

/-- A shared head key whose two non-table values have the same discriminant
keeps the current value. -/
theorem fix_head_same_disc (k : String) (cv dv : Toml)
    (c2 d2 : List (String × Toml)) (hsd : sameDiscriminant cv dv = true)
    (hnt : isTable cv = false) :
    fix_config_toml ((k, cv) :: c2) ((k, dv) :: d2) =
      ((k, cv) :: (fix_config_toml c2 d2).1, (fix_config_toml c2 d2).2) := by
  have hk : ¬ k < k := lt_irrefl k
  rw [fix_config_toml.eq_def]
  cases cv <;> cases dv <;> simp_all [sameDiscriminant, isTable]

/-- A shared head key with two sub-tables recurses. -/
theorem fix_head_table (k : String) (ct dt : List (String × Toml))
    (c2 d2 : List (String × Toml)) :
    fix_config_toml ((k, Toml.table ct) :: c2) ((k, Toml.table dt) :: d2) =
      ((k, Toml.table (fix_config_toml ct dt).1) :: (fix_config_toml c2 d2).1,
        (fix_config_toml ct dt).2 || (fix_config_toml c2 d2).2) := by
  have hk : ¬ k < k := lt_irrefl k
  rw [fix_config_toml.eq_def]
  simp [hk, sameDiscriminant]

/-- A shared head key with differing discriminants takes the default
value and reports a change. -/
theorem fix_head_diff (k : String) (cv dv : Toml)
    (c2 d2 : List (String × Toml)) (hsd : sameDiscriminant cv dv = false) :
    fix_config_toml ((k, cv) :: c2) ((k, dv) :: d2) =
      ((k, dv) :: (fix_config_toml c2 d2).1, true) := by
  have hk : ¬ k < k := lt_irrefl k
  rw [fix_config_toml.eq_def]
  cases cv <;> cases dv <;> simp_all [sameDiscriminant]

theorem fix_head_lt (ck dk : String) (cv dv : Toml)
    (cs ds : List (String × Toml)) (hck : ck < dk) :
    fix_config_toml ((ck, cv) :: cs) ((dk, dv) :: ds) =
      ((fix_config_toml cs ((dk, dv) :: ds)).1, true) := by
  rw [fix_config_toml.eq_def]
  simp [hck]

theorem fix_head_gt (ck dk : String) (cv dv : Toml)
    (cs ds : List (String × Toml)) (hck : ¬ ck < dk) (hdk : dk < ck) :
    fix_config_toml ((ck, cv) :: cs) ((dk, dv) :: ds) =
      ((dk, dv) :: (fix_config_toml ((ck, cv) :: cs) ds).1, true) := by
  rw [fix_config_toml.eq_def]
  simp [hck, hdk]

/-- The two-pass property behind claim C7, by strong induction on the
combined size. -/
theorem fix_config_toml_idem_aux :
    ∀ (n : Nat) (c d : List (String × Toml)), sizeOf c + sizeOf d < n →
      fix_config_toml (fix_config_toml c d).1 d =
        ((fix_config_toml c d).1, false) := by
  intro n
  induction n with
  | zero => intro c d h; exact absurd h (Nat.not_lt_zero _)
  | succ n ih =>
    intro c d h
    cases c with
    | nil =>
      cases d with
      | nil => simp [fix_nil_nil]
      | cons dd ds =>
        obtain ⟨dk, dv⟩ := dd
        simp only [List.cons.sizeOf_spec, Prod.mk.sizeOf_spec] at h
        have hds : fix_config_toml (fix_config_toml [] ds).1 ds =
            ((fix_config_toml [] ds).1, false) := by
          apply ih
          omega
        rw [fix_nil_cons, fix_pair_self, hds]
    | cons cc cs =>
      obtain ⟨ck, cv⟩ := cc
      cases d with
      | nil =>
        rw [fix_cons_nil, fix_nil_right_fst, fix_nil_nil]
      | cons dd ds =>
        obtain ⟨dk, dv⟩ := dd
        simp only [List.cons.sizeOf_spec, Prod.mk.sizeOf_spec] at h
        have hA : sizeOf cs + sizeOf ((dk, dv) :: ds) < n := by
          simp only [List.cons.sizeOf_spec, Prod.mk.sizeOf_spec]
          omega
        have hB : sizeOf ((ck, cv) :: cs) + sizeOf ds < n := by
          simp only [List.cons.sizeOf_spec, Prod.mk.sizeOf_spec]
          omega
        have hC : sizeOf cs + sizeOf ds < n := by omega
        by_cases hck : ck < dk
        · rw [fix_head_lt ck dk cv dv cs ds hck]
          exact ih cs ((dk, dv) :: ds) hA
        · by_cases hdk : dk < ck
          · rw [fix_head_gt ck dk cv dv cs ds hck hdk, fix_pair_self,
              ih ((ck, cv) :: cs) ds hB]
          · have hkeq : ck = dk := le_antisymm (not_lt.mp hdk) (not_lt.mp hck)
            subst hkeq
            by_cases hsd : sameDiscriminant cv dv = true
            · by_cases htab : isTable cv = true
              · obtain ⟨ct, rfl⟩ : ∃ ct, cv = Toml.table ct := by
                  cases cv <;> first | exact ⟨_, rfl⟩ | simp_all [isTable]
                obtain ⟨dt, rfl⟩ : ∃ dt, dv = Toml.table dt := by
                  cases dv <;>
                    first | exact ⟨_, rfl⟩ | simp_all [sameDiscriminant]
                simp only [Toml.table.sizeOf_spec] at h
                rw [fix_head_table, fix_head_table,
                  ih ct dt (by omega), ih cs ds hC]
                simp
              · have htab2 : isTable cv = false := by simpa using htab
                rw [fix_head_same_disc ck cv dv cs ds hsd htab2,
                  fix_head_same_disc ck cv dv (fix_config_toml cs ds).1 ds
                    hsd htab2,
                  ih cs ds hC]
            · have hsd2 : sameDiscriminant cv dv = false := by simpa using hsd
              rw [fix_head_diff ck cv dv cs ds hsd2, fix_pair_self,
                ih cs ds hC]

/-- Claim C7: config migration is idempotent — reconciling the result of a
reconciliation against the same built-in default table changes nothing and
reports `false` ("nothing changed"). -/
theorem c7_fix_config_toml_idempotent (current dflt : List (String × Toml)) :
    fix_config_toml (fix_config_toml current dflt).1 dflt =
      ((fix_config_toml current dflt).1, false) :=
  fix_config_toml_idem_aux (sizeOf current + sizeOf dflt + 1) current dflt
    (Nat.lt_succ_self _)

/-! ## The rasterizer worker (`src/threads/renderer.rs`)

The two-channel priority pair (`drivers/priority_channel.rs`) is a pair of
FIFO queues; `try_send_priority(a, i)` appends to queue `i`,
`clear_priority(i)` empties queue `i`, and the worker's biased select takes
from queue 0 first.  Rasterizing a page records it together with the
`alpha`/`inverse` flags in force at that moment; an out-of-range page
records a removal signal instead.  The `Load` handling (reopen the
document, rebuild the cache, send metadata) is collapsed to its queue
effects, which are all claim C2 needs. -/

/-- `RendererAction` (`src/threads/renderer.rs:17-23`). -/
inductive RendererAction where
  | load
  | display (page : Nat)
  | toggleInverse
  | toggleAlpha
  deriving Repr, DecidableEq

/-- The worker-visible state: the two flags, the two priority queues of the
action channel, the page-cache length, and the streams of results the
worker has produced. -/
structure RendererState where
  alpha : Bool
  inverse : Bool
  queue0 : List RendererAction
  queue1 : List RendererAction
  pageCount : Nat
  rendered : List (Nat × Bool × Bool)
  removed : List Nat
  deriving Repr, DecidableEq

/-- `Renderer::send_action` (`src/threads/renderer.rs:281-295`): only
`Display` is accepted, and it is sent with `try_send_priority(action, 0)` —
priority 0, not 1. -/
def send_action_display (page : Nat) (st : RendererState) : RendererState :=
  { st with queue0 := st.queue0 ++ [RendererAction.display page] }

/-- `Renderer::send_and_confirm_action` (`src/threads/renderer.rs:297-320`):
`Load`/`ToggleAlpha`/`ToggleInverse` are sent with
`try_send_priority(action, 0)`; `Display` is refused (`none`).  The
confirmation echo on the general channel is elided. -/
def send_and_confirm_action (a : RendererAction) (st : RendererState) :
    Option RendererState :=
  match a with
  | RendererAction.display _ => none
  | _ => some { st with queue0 := st.queue0 ++ [a] }

/-- The body of the worker loop for one received action
(`src/threads/renderer.rs:190-265`): `Load` clears queue 0, reloads, then
clears queue 1; the toggles flip their flag and call `clear_priority(1)`;
`Display(p)` rasterizes with the current flags when `p` is in range and
signals a removal otherwise. -/
def process_action (st : RendererState) (a : RendererAction) : RendererState :=
  match a with
  | RendererAction.load => { st with queue0 := [], queue1 := [] }
  | RendererAction.toggleAlpha => { st with alpha := !st.alpha, queue1 := [] }
  | RendererAction.toggleInverse =>
    { st with inverse := !st.inverse, queue1 := [] }
  | RendererAction.display p =>
    if p < st.pageCount then
      { st with rendered := st.rendered ++ [(p, st.alpha, st.inverse)] }
    else
      { st with removed := st.removed ++ [p] }

/-- One worker iteration: the biased select pops queue 0 first, then
queue 1; with both empty the worker blocks (`none`). -/
def worker_step (st : RendererState) : Option RendererState :=
  match st.queue0, st.queue1 with
  | a :: rest, _ => some (process_action { st with queue0 := rest } a)
  | [], a :: rest => some (process_action { st with queue1 := rest } a)
  | [], [] => none

/-- The worker state right after startup: flags false
(`RendererInnerState::new`, `src/threads/renderer.rs:58-70`), both queues
empty, a one-page document. -/
def rendererInit : RendererState :=
  { alpha := false, inverse := false, queue0 := [], queue1 := [],
    pageCount := 1, rendered := [], removed := [] }

/-- Claim C2 (code bug): schedule `Display(0)` via `send_action`, then send
`ToggleAlpha`.  Because `send_action` enqueues `Display` at priority 0 —
the same queue as the control actions — the request sits ahead of the
toggle in queue 0, and the toggle's `clear_priority(1)` drains a queue that
is always empty.  Running the worker two steps shows page 0 IS rasterized
(under the old `alpha = false`) before the flag flips, and nothing is
discarded — the claim (and the comment at the `clear_priority(1)` call,
"Clear the scheduled pages for rendering") requires the pending request to
be dropped and never rasterized. -/
theorem c2_toggle_discards_nothing_code_bug :
    ((send_and_confirm_action RendererAction.toggleAlpha
        (send_action_display 0 rendererInit)).bind
      (fun st => (worker_step st).bind worker_step)) =
      some { alpha := true, inverse := false, queue0 := [], queue1 := [],
             pageCount := 1, rendered := [(0, false, false)], removed := [] } ∧
    (send_action_display 0 rendererInit).queue1 = [] := by
  exact ⟨rfl, rfl⟩

/-! ## The temp-file handshake (`src/drivers/graphics.rs`)

`terminal_graphics_transfer_bitmap` (lines 52-93) busy-waits
`while tmp_file_path.exists() {}` and then calls `File::create`.  The
protocol is modelled as a transition system over the adapter's program
counter and the existence of the per-image temp path.  The environment (the
Kitty terminal) may only delete the file — per the contract, the terminal
consumes and then deletes it, and the adapter is the only creator of the
path (its name contains the process-random `SOFTWARE_ID` and the image
id). -/

/-- The control locations of the transfer routine: spinning in the
busy-wait loop, past the loop and about to call `File::create`, and done
creating/writing. -/
inductive TransferPC where
  | waiting
  | creating
  | finished
  deriving Repr, DecidableEq

/-- Adapter program counter plus whether a file currently exists at the
temp path. -/
structure TransferState where
  pc : TransferPC
  fileExists : Bool
  deriving Repr, DecidableEq

/-- Interleaved steps of the adapter and the terminal:
`envDelete` is the terminal deleting the consumed file (its only ability);
`checkBusy` is a loop iteration observing the path present;
`checkPass` exits the loop on observing the path absent;
`create` is `File::create`, which makes the path exist. -/
inductive TransferStep : TransferState → TransferState → Prop where
  | envDelete (pc : TransferPC) :
    TransferStep { pc := pc, fileExists := true }
      { pc := pc, fileExists := false }
  | checkBusy :
    TransferStep { pc := TransferPC.waiting, fileExists := true }
      { pc := TransferPC.waiting, fileExists := true }
  | checkPass :
    TransferStep { pc := TransferPC.waiting, fileExists := false }
      { pc := TransferPC.creating, fileExists := false }
  | create (b : Bool) :
    TransferStep { pc := TransferPC.creating, fileExists := b }
      { pc := TransferPC.finished, fileExists := true }

/-- Claim C8: in every execution of the transfer routine — from any initial
state of the path — whenever the adapter is past the busy-wait and about to
call `File::create`, the path does not exist: the loop only exits on
observing absence, and the terminal can only delete, never re-create.
Hence the file is never created over a still-existing prior file. -/
theorem c8_transfer_no_overwrite (b0 : Bool) (s : TransferState)
    (h : Relation.ReflTransGen TransferStep
      { pc := TransferPC.waiting, fileExists := b0 } s)
    (hpc : s.pc = TransferPC.creating) : s.fileExists = false := by
  induction h with
  | refl => exact absurd hpc (by simp)
  | tail hsteps hstep ih =>
    cases hstep with
    | envDelete pc => rfl
    | checkBusy => exact absurd hpc (by simp)
    | checkPass => rfl
    | create b => exact absurd hpc (by simp)

/-- Witness for C8: with the prior file still present initially, the run
delete-then-observe-absence reaches the point of creation with the path
absent. -/
theorem c8_transfer_no_overwrite_witness :
    ({ pc := TransferPC.creating, fileExists := false } :
      TransferState).fileExists = false :=
  c8_transfer_no_overwrite true
    { pc := TransferPC.creating, fileExists := false }
    (Relation.ReflTransGen.tail
      (Relation.ReflTransGen.tail Relation.ReflTransGen.refl
        (TransferStep.envDelete TransferPC.waiting))
      TransferStep.checkPass) rfl

end MeowPDF
